import Mathlib

/-!
Verification of the serial-line conversation engine of the `uboot_tool`
repository (a host-side U-Boot serial client).

The Rust sources are shallowly embedded: every nom parser is modelled as a
function `List Char → Option (List Char × α)` (`none` mirrors a nom `Err`,
`some (rest, v)` mirrors `Ok((rest, v))`), machine integers are `Nat` with an
explicit `% 2 ^ 64` (resp. bit-width bound) wherever the Rust `u64`/`u8`
arithmetic may wrap, fallible operations return `Option`/`Except`, and the
two stateful components the claims need — the `LinesStream` line framer and
the `dump_mtd_part` read loop — are embedded as explicit state-passing
functions over the sequence of chunks / lines they consume.

Loops of nom combinators (`fold_many1`, `separated_list0`) consume at least
one character per iteration in every use in this code base; they are embedded
with an explicit fuel argument initialised to the length of the remaining
input plus one, which therefore never runs out.
-/

/-- Result of a nom parser over a character stream: `none` is a parse error,
`some (rest, value)` is success with unconsumed input `rest`. -/
def NomP (α : Type) : Type := List Char → Option (List Char × α)

/-- ASCII lowercasing, as used by nom `tag_no_case` comparisons. -/
def asciiLower (c : Char) : Char :=
  if 'A' ≤ c ∧ c ≤ 'Z' then Char.ofNat (c.toNat + 32) else c

/-- nom `tag_no_case(t)`: case-insensitively match the literal `t`. -/
def tag_no_case (t : List Char) : NomP Unit := fun s =>
  match t with
  | [] => some (s, ())
  | c :: t1 =>
    match s with
    | [] => none
    | d :: s1 =>
      if asciiLower d = asciiLower c then tag_no_case t1 s1 else none

/-- nom `char(c)`: match exactly the character `c`. -/
def pchar (c : Char) : NomP Unit := fun s =>
  match s with
  | [] => none
  | d :: s1 => if d = c then some (s1, ()) else none

/-- nom space characters (`space0`/`space1` match spaces and tabs). -/
def isNomSpace (c : Char) : Bool := c = ' ' ∨ c = '\t'

/-- nom `space0`: zero or more spaces/tabs. -/
def space0 : NomP Unit := fun s => some (s.dropWhile isNomSpace, ())

/-- nom `space1`: one or more spaces/tabs. -/
def space1 : NomP Unit := fun s =>
  match s with
  | [] => none
  | c :: _ => if isNomSpace c then some (s.dropWhile isNomSpace, ()) else none

/-- nom `take_till(p)`: consume the longest prefix on which `p` is false. -/
def take_till (p : Char → Bool) : NomP (List Char) := fun s =>
  some (s.dropWhile (fun c => ! p c), s.takeWhile (fun c => ! p c))

/-- nom `opt(p)`: always succeeds, consuming nothing on inner failure. -/
def popt {α : Type} (p : NomP α) : NomP (Option α) := fun s =>
  match p s with
  | some (s1, a) => some (s1, some a)
  | none => some (s, none)

/-- nom `alt((p, q))`: `p`, falling back to `q` on failure. -/
def palt {α : Type} (p q : NomP α) : NomP α := fun s =>
  match p s with
  | some r => some r
  | none => q s

/-- Sequencing of two nom parsers (one step of a nom `tuple`). -/
def pseq {α β : Type} (p : NomP α) (q : NomP β) : NomP (α × β) := fun s =>
  match p s with
  | none => none
  | some (s1, a) =>
    match q s1 with
    | none => none
    | some (s2, b) => some (s2, (a, b))

/-- nom `map(p, f)`. -/
def pmap {α β : Type} (p : NomP α) (f : α → β) : NomP β := fun s =>
  match p s with
  | none => none
  | some (s1, a) => some (s1, f a)

/-- Value of a hexadecimal digit character, exactly as computed by the
source's `hex_dig` (membership in `"0123456789abcdefABCDEF"` followed by
byte arithmetic on the code point). -/
def hex_dig_val (c : Char) : Option Nat :=
  if ("0123456789abcdefABCDEF".toList).contains c then
    some (c.toNat - (if c.toNat ≤ 57 then 48 else if c.toNat ≤ 90 then 55 else 87))
  else none

/-- Source `hex_dig`: parse one hexadecimal digit. -/
def hex_dig : NomP Nat := fun s =>
  match s with
  | [] => none
  | c :: rest =>
    match hex_dig_val c with
    | some d => some (rest, d)
    | none => none

/-- Value of a decimal digit character (source `dec_dig`). -/
def dec_dig_val (c : Char) : Option Nat :=
  if ("0123456789".toList).contains c then some (c.toNat - 48) else none

/-- Source `dec_dig`: parse one decimal digit. -/
def dec_dig : NomP Nat := fun s =>
  match s with
  | [] => none
  | c :: rest =>
    match dec_dig_val c with
    | some d => some (rest, d)
    | none => none

/-- Loop of nom `fold_many1(dig, 0, f)` specialised to one-character digit
parsers. The fuel starts at the length of the remaining input, which the
one-character digit parser can never outrun. -/
def fold_digs (dig : NomP Nat) (f : Nat → Nat → Nat) :
    Nat → List Char → Nat → List Char × Nat
  | 0, s, val => (s, val)
  | fuel + 1, s, val =>
    match dig s with
    | some (s1, d) => fold_digs dig f fuel s1 (f val d)
    | none => (s, val)

/-- nom `fold_many1(dig, || 0, f)` for a one-character digit parser. -/
def fold_many1 (dig : NomP Nat) (f : Nat → Nat → Nat) : NomP Nat := fun s =>
  match dig s with
  | some (s1, d) => some (fold_digs dig f s1.length s1 (f 0 d))
  | none => none

/-- Source `hex_u8`: one or two hexadecimal digits,
`(h1 << 4) | h2` when a second digit is present. -/
def hex_u8 : NomP Nat := fun s =>
  match hex_dig s with
  | none => none
  | some (s1, h1) =>
    match hex_dig s1 with
    | some (s2, h2) => some (s2, (h1 <<< 4) ||| h2)
    | none => some (s1, h1)

/-- Source `hex_u64`: `fold_many1(hex_dig, || 0, |val, dig| (val << 4) | dig)`
in wrapping `u64` arithmetic. -/
def hex_u64 : NomP Nat :=
  fold_many1 hex_dig (fun val dig => ((val <<< 4) ||| dig) % 2 ^ 64)

/-- Source `hex_u64_0x`: `preceded(tag_no_case("0x"), hex_u64)`. -/
def hex_u64_0x : NomP Nat := fun s =>
  match tag_no_case ("0x".toList) s with
  | some (s1, _) => hex_u64 s1
  | none => none

/-- Source `dec_u64`: `fold_many1(hex_dig, || 0, |val, dig| val * 10 + dig)`
— note the HEXADECIMAL digit parser folded into a base-10 accumulator, in
wrapping `u64` arithmetic. -/
def dec_u64 : NomP Nat :=
  fold_many1 hex_dig (fun val dig => (val * 10 + dig) % 2 ^ 64)

/-- Source `units_mul`: optional `k`/`m` magnitude (case-insensitive) and an
optional trailing `b`; yields the multiplier (default one). -/
def units_mul : NomP Nat :=
  pmap
    (pseq
      (popt (palt (pmap (tag_no_case ("k".toList)) (fun _ => 2 ^ 10))
                  (pmap (tag_no_case ("m".toList)) (fun _ => 2 ^ 20))))
      (popt (tag_no_case ("b".toList))))
    (fun x => x.1.getD 1)

/-- Source `dec_u64_units`: decimal number times optional unit multiplier,
in wrapping `u64` arithmetic. -/
def dec_u64_units : NomP Nat :=
  pmap (pseq dec_u64 units_mul) (fun x => (x.1 * x.2) % 2 ^ 64)

/-- Source `size_u64`: `alt((hex_u64_0x, dec_u64_units))`. -/
def size_u64 : NomP Nat := palt hex_u64_0x dec_u64_units

example : size_u64 ("0x100".toList) = some ([], 256) := by decide
example : size_u64 ("64KB".toList) = some ([], 65536) := by decide
example : size_u64 ("8M".toList) = some ([], 8388608) := by decide
example : size_u64 ("16".toList) = some ([], 16) := by decide
example : dec_u64 ("1a".toList) = some ([], 20) := by decide

/-- Loop of nom `separated_list0(sep, elem)` after the first element. Every
use in this code base has a separator or element consuming at least one
character, so fuel `length + 1` never runs out; a non-consuming round
(where nom would error out of its infinite-loop check) stops the loop. -/
def sep_list_rest {α : Type} (sep : NomP Unit) (elem : NomP α) :
    Nat → List Char → List α → List Char × List α
  | 0, s, acc => (s, acc)
  | fuel + 1, s, acc =>
    match sep s with
    | none => (s, acc)
    | some (s1, _) =>
      match elem s1 with
      | none => (s, acc)
      | some (s2, a) =>
        if s2.length < s.length then sep_list_rest sep elem fuel s2 (acc ++ [a])
        else (s, acc)

/-- nom `separated_list0(sep, elem)`. -/
def separated_list0 {α : Type} (sep : NomP Unit) (elem : NomP α) :
    NomP (List α) := fun s =>
  match elem s with
  | none => some (s, [])
  | some (s1, a) => some (sep_list_rest sep elem (s1.length + 1) s1 [a])

/-- Source `HexDump::parse_line` inner nom parser:
`tuple((hex_u64, char(':'), space0, separated_list0(char(' '), hex_u8)))`,
keeping only the byte list. -/
def HexDump.parse_line : NomP (List Nat) :=
  pmap
    (pseq (pseq (pseq hex_u64 (pchar ':')) space0)
          (separated_list0 (pchar ' ') hex_u8))
    (fun x => x.2)

example :
    HexDump.parse_line
      ("42000000: 15 05 00 ea fe ff ff ea                            ........\r".toList)
      = some (("                            ........\r".toList),
              [0x15, 0x5, 0x0, 0xea, 0xfe, 0xff, 0xff, 0xea]) := by decide

example : (HexDump.parse_line ("42000000:\r".toList)).map Prod.snd = some [] := by decide

/-- Memory region: `base`/`size` are Rust `u64` values. -/
structure MemRegion where
  base : Nat
  size : Nat
deriving DecidableEq, Repr

/-- Insertion into an `IndexMap` (the repository's `Map` type): an existing
key keeps its position and gets the new value, a new key is appended. -/
def indexInsert {α : Type} : List (String × α) → String → α → List (String × α)
  | [], k, v => [(k, v)]
  | (k1, v1) :: rest, k, v =>
    if k1 = k then (k1, v) :: rest else (k1, v1) :: indexInsert rest k v

/-- Collecting a key-value sequence into an `IndexMap`
(`FromIterator`, which inserts left to right). -/
def indexCollect {α : Type} (l : List (String × α)) : List (String × α) :=
  l.foldl (fun m kv => indexInsert m kv.1 kv.2) []

/-- Source `Variables::parse_mtd_parts` nom parser: protocol prefix up to
`:`, then a comma-separated list of `<size>(<name>)` items. -/
def mtd_parts_list : NomP (List (String × Nat)) :=
  pmap
    (pseq (pseq (take_till (fun c => c = ':')) (pchar ':'))
      (separated_list0 (pchar ',')
        (pmap
          (pseq (pseq (pseq size_u64 (pchar '('))
                      (take_till (fun c => c = ')')))
                (pchar ')'))
          (fun x => (String.mk x.1.2, x.1.1.1)))))
    (fun x => x.2)

/-- The `scan` accumulating each partition's base as the running (wrapping
`u64`) sum of the previous partitions' sizes. -/
def scanParts : List (String × Nat) → Nat → List (String × MemRegion)
  | [], _ => []
  | (name, size) :: rest, offset =>
    (name, MemRegion.mk offset size) :: scanParts rest ((offset + size) % 2 ^ 64)

/-- Source `Variables::parse_mtd_parts`: parse, scan bases, collect into the
insertion-ordered map. -/
def Variables.parse_mtd_parts (src : List Char) : Option (List (String × MemRegion)) :=
  match mtd_parts_list src with
  | none => none
  | some (_, parts) => some (indexCollect (scanParts parts 0))

example :
    Variables.parse_mtd_parts ("hi_sfc:0x40000(boot),0x2E0000(romfs),0x420000(user)".toList)
      = some [("boot", ⟨0, 0x40000⟩), ("romfs", ⟨0x40000, 0x2E0000⟩),
              ("user", ⟨0x320000, 0x420000⟩)] := by decide

/-- Rust `char::is_whitespace` (the Unicode White_Space property), used by
`str::trim_end`. -/
def isRustWhitespace (c : Char) : Bool :=
  c.toNat ∈ ([0x9, 0xA, 0xB, 0xC, 0xD, 0x20, 0x85, 0xA0, 0x1680,
    0x2000, 0x2001, 0x2002, 0x2003, 0x2004, 0x2005, 0x2006, 0x2007,
    0x2008, 0x2009, 0x200A, 0x2028, 0x2029, 0x202F, 0x205F, 0x3000] : List Nat)

/-- Rust `str::trim_end`: drop trailing whitespace. -/
def trimEnd (s : List Char) : List Char :=
  (s.reverse.dropWhile isRustWhitespace).reverse

/-- Source `Variables::_extend_parse` nom parser with separators
`kv_sep`/`ent_sep`: `(space0, take_till(kv_sep), char(kv_sep), space0,
take_till(ent_sep))`, followed by `trim_end` on both key and value. -/
def extend_parse (kv_sep ent_sep : Char) : NomP (String × String) :=
  pmap
    (pseq (pseq (pseq (pseq space0 (take_till (fun c => c = kv_sep)))
                      (pchar kv_sep))
                space0)
          (take_till (fun c => c = ent_sep)))
    (fun x => (String.mk (trimEnd x.1.1.1.2), String.mk (trimEnd x.2)))

/-- Source `Variables::extend_parse_env` parse step (`'='`/`'\r'`), returning
the key-value pair the line inserts (`none` on a parse failure). -/
def parse_env_line (line : List Char) : Option (String × String) :=
  match extend_parse '=' '\r' line with
  | some (_, kv) => some kv
  | none => none

/-- Folding console lines into a `Variables` store as `get_environ` does:
each parseable line is inserted, parse failures are ignored. -/
def envFromLines (lines : List (List Char)) : List (String × String) :=
  lines.foldl
    (fun m line =>
      match parse_env_line line with
      | some (k, v) => indexInsert m k v
      | none => m)
    []

/-- Serialisation done by the CLI `dump-env` command: one `KEY=VALUE` line
per entry, iterating the store in order. -/
def serializeEnv (m : List (String × String)) : List Char :=
  (m.map (fun kv => kv.1.toList ++ '=' :: kv.2.toList ++ ['\n'])).flatten

/-- Keys in order of their first insertion (specification-side view of the
round-trip claim). -/
def firstKeys (kvs : List (String × String)) : List String :=
  (kvs.map Prod.fst).foldl (fun acc k => if k ∈ acc then acc else acc ++ [k]) []

/-- Value written by the last pair carrying the given key
(specification-side view of the round-trip claim). -/
def lastWritten (k : String) : List (String × String) → Option String
  | [] => none
  | (k1, v) :: rest =>
    match lastWritten k rest with
    | some v1 => some v1
    | none => if k1 = k then some v else none

/-- Lookup in the association-list model of an `IndexMap`. -/
def tblGet (k : String) : List (String × String) → Option String
  | [] => none
  | (k1, v) :: rest => if k1 = k then some v else tblGet k rest

example :
    envFromLines [" baudrate =115200\r".toList, "bootdelay=0".toList,
                  "baudrate=9600\r".toList]
      = [("baudrate", "9600"), ("bootdelay", "0")] := by decide

/-- Source `VersionInfo` (year/month as parsed by nom `u16`/`u8`). -/
structure VersionInfo where
  year : Nat
  month : Nat
  revision : String
  suffix : String
deriving DecidableEq, Repr

/-- Loop of the nom character integer parsers (`u16`, `u8`): fold decimal
digits with a checked accumulator, failing once the value would exceed
`max`. -/
def nom_uint_digs (max : Nat) : List Char → Nat → Option (List Char × Nat)
  | [], val => some ([], val)
  | c :: rest, val =>
    match dec_dig_val c with
    | some d => if val * 10 + d > max then none else nom_uint_digs max rest (val * 10 + d)
    | none => some (c :: rest, val)

/-- nom `character::complete::u8`/`u16`: one or more decimal digits with
overflow check against `max`. -/
def nom_uint (max : Nat) : NomP Nat := fun s =>
  match s with
  | c :: rest =>
    match dec_dig_val c with
    | some d => if d > max then none else nom_uint_digs max rest d
    | none => none
  | [] => none

/-- ASCII alphanumeric predicate backing nom `alphanumeric1`. -/
def isAsciiAlphanum (c : Char) : Bool :=
  ('0' ≤ c ∧ c ≤ '9') ∨ ('A' ≤ c ∧ c ≤ 'Z') ∨ ('a' ≤ c ∧ c ≤ 'z')

/-- nom `alphanumeric1`: one or more ASCII alphanumeric characters. -/
def alphanumeric1 : NomP (List Char) := fun s =>
  match s with
  | [] => none
  | c :: _ =>
    if isAsciiAlphanum c then
      some (s.dropWhile isAsciiAlphanum, s.takeWhile isAsciiAlphanum)
    else none

/-- One optional `-<alnum>` group of the version banner, yielding the empty
string when absent. -/
def version_group : NomP String :=
  pmap (popt (pseq (pchar '-') alphanumeric1))
    (fun o => match o with
      | some (_, cs) => String.mk cs
      | none => "")

/-- Source `VersionInfo::parse` nom parser: optional `version:` prefix,
literal `U-Boot`, `YYYY.MM` via nom `u16`/`u8`, then two optional `-<alnum>`
groups (revision, suffix). No constraint beyond `u8` is put on the month. -/
def VersionInfo.parse : NomP VersionInfo :=
  pmap
    (pseq (pseq (pseq (pseq (pseq
      (pseq (popt (pseq (tag_no_case ("version:".toList)) space1))
            (pseq (tag_no_case ("U-Boot".toList)) space1))
      (nom_uint 65535)) (pchar '.')) (nom_uint 255)) version_group) version_group)
    (fun x =>
      VersionInfo.mk x.1.1.1.1.2 x.1.1.2 x.1.2 x.2)

example :
    VersionInfo.parse ("version: U-Boot 2016.11-g2fc5f58-dirty\r".toList)
      = some ("\r".toList, VersionInfo.mk 2016 11 "g2fc5f58" "dirty") := by decide

example :
    VersionInfo.parse ("U-Boot 2020.09".toList)
      = some ([], VersionInfo.mk 2020 9 "" "") := by decide

/-- Source `TerminalKey` (the `Ctrl` payload is the raw `u8` code). -/
inductive TerminalKey where
  | Any : TerminalKey
  | Key : Char → TerminalKey
  | Ctrl : Nat → TerminalKey
deriving DecidableEq, Repr

/-- UTF-8 encoding of a code point (Rust `char::to_string`). -/
def utf8Encode (cp : Nat) : List Nat :=
  if cp < 0x80 then [cp]
  else if cp < 0x800 then
    [0xC0 ||| (cp >>> 6), 0x80 ||| (cp &&& 0x3F)]
  else if cp < 0x10000 then
    [0xE0 ||| (cp >>> 12), 0x80 ||| ((cp >>> 6) &&& 0x3F), 0x80 ||| (cp &&& 0x3F)]
  else
    [0xF0 ||| (cp >>> 18), 0x80 ||| ((cp >>> 12) &&& 0x3F),
     0x80 ||| ((cp >>> 6) &&& 0x3F), 0x80 ||| (cp &&& 0x3F)]

/-- Source `TerminalKey::encode`, as the byte string sent to the device.
The `Ctrl` branch computes `code - (b'A' - 0x1)` in `u8`; when
`code < 0x40` that subtraction underflows (a panic in debug builds, a
wrapped non-control byte in release builds), modelled here as `none`. -/
def TerminalKey.encode : TerminalKey → Option (List Nat)
  | TerminalKey.Any => some (utf8Encode 0x61)
  | TerminalKey.Key c => some (utf8Encode c.toNat)
  | TerminalKey.Ctrl code =>
    if code < 0x40 then none else some (utf8Encode (code - 0x40))

example : TerminalKey.encode (TerminalKey.Ctrl 0x43) = some [0x03] := by decide

/-- Rust byte-slice `split(|b| *b == b'\n')`: the list of segments between
newline bytes; the separators are consumed, never empty (an empty input
yields one empty segment). -/
def splitNl : List Nat → List (List Nat)
  | [] => [[]]
  | b :: rest =>
    if b = 10 then [] :: splitNl rest
    else
      match splitNl rest with
      | [] => [[b]]
      | p :: ps => (b :: p) :: ps

/-- Append a piece to the back entry of the framer's deque (`back_mut`
extension), pushing a fresh entry when the deque is empty. -/
def appendToLast : List (List Nat) → List Nat → List (List Nat)
  | [], piece => [piece]
  | [last], piece => [last ++ piece]
  | x :: rest, piece => x :: appendToLast rest piece

/-- One `LinesStream` chunk arrival: split the chunk at `\n`, extend the open
tail with the first piece, push the remaining pieces as new entries. -/
def pushChunk (buf : List (List Nat)) (chunk : List Nat) : List (List Nat) :=
  match splitNl chunk with
  | [] => buf
  | first :: rest => appendToLast buf first ++ rest

/-- Whether a poll of the upstream resets the quiescence timer: the
`LinesStream` code resets it on every `Ready(Some(chunk))`, regardless of
the chunk's content. -/
def pollTimerReset : Option (List Nat) → Bool
  | some _ => true
  | none => false

/-- Full sequence of lines emitted by `LinesStream` when the given chunks
arrive with no intervening quiescence flush and the stream is then drained
after the upstream ends: entries are emitted oldest-first whenever more than
one is buffered and the remainder is drained at end-of-stream, so the
emitted sequence is the final deque content of folding the arrivals. -/
def framerLines (chunks : List (List Nat)) : List (List Nat) :=
  chunks.foldl pushChunk []

example : framerLines [[97, 98], [99, 10, 100], [10]] = [[97, 98, 99], [100], []] := by decide

/-- One step of the bitwise CRC-32 (IEEE 802.3, reflected, polynomial
`0xEDB88320`) as computed by the `crc32fast` hasher and by U-Boot `crc32`. -/
def crc32UpdateByte (crc b : Nat) : Nat :=
  (List.range 8).foldl
    (fun c _ => if c % 2 = 1 then (c >>> 1) ^^^ 0xEDB88320 else c >>> 1)
    (crc ^^^ (b % 256))

/-- CRC-32 hasher state after absorbing the given bytes. -/
def crc32Update (crc : Nat) (bs : List Nat) : Nat := bs.foldl crc32UpdateByte crc

/-- CRC-32 of a byte sequence (`Hasher::new` starts at `0xFFFFFFFF`,
`finalize` flips the bits back). -/
def crc32 (bs : List Nat) : Nat := crc32Update 0xFFFFFFFF bs ^^^ 0xFFFFFFFF

set_option maxRecDepth 100000 in
example : crc32 [0x31, 0x32, 0x33, 0x34, 0x35, 0x36, 0x37, 0x38, 0x39] = 0xCBF43926 := by decide

/-- Result of the embedded `dump_mtd_part`: `ok` mirrors `Ok(())`, `err`
mirrors `anyhow::bail!` with the source's message. -/
inductive DumpRes where
  | ok : DumpRes
  | err : String → DumpRes
deriving DecidableEq, Repr

/-- Observable outcome of the `dump_mtd_part` hex-dump loop: the returned
result, the final `off` and hasher state, the bytes written to the sink, and
whether a Ctrl-C was sent to the device (progress receiver dropped). -/
structure DumpOut where
  result : DumpRes
  off : Nat
  hasher : Nat
  written : List Nat
  ctrlC : Bool
deriving DecidableEq, Repr

/-- Post-loop part of `dump_mtd_part`: the over-read check and the
comparison of the device checksum against the finalized running CRC. -/
def dumpFinish (size checksum : Nat) (off hasher : Nat) (written : List Nat)
    (ctrlC : Bool) : DumpOut :=
  if off > size then
    DumpOut.mk (DumpRes.err "Out of region") off hasher written ctrlC
  else if checksum ≠ hasher ^^^ 0xFFFFFFFF then
    DumpOut.mk (DumpRes.err "Checksum does not matches!") off hasher written ctrlC
  else
    DumpOut.mk DumpRes.ok off hasher written ctrlC

/-- Whether a received line ends with the carriage-return sentinel
(`line.ends_with(b"\r")`). -/
def endsWithCR (line : List Char) : Bool :=
  match line.getLast? with
  | some c => c = '\r'
  | none => false

/-- The `md.b` hex-dump loop of `dump_mtd_part` over the lines the framer
delivers (each event one line, in order; an exhausted event list stands for
the per-line timeout). `progLeft` counts how many progress sends the
receiver still accepts before it is dropped; a failed send triggers the
Ctrl-C abort and the `break`. All sizes and offsets are wrapping `u64`. -/
def dumpLoop (size checksum : Nat) :
    List (List Char) → Nat → Nat → Nat → List Nat → DumpOut
  | events, progLeft, hasher, off, written =>
    if off < size then
      match events with
      | [] => DumpOut.mk (DumpRes.err "Dump memory timeout") off hasher written false
      | line :: rest =>
        if endsWithCR line then
          if ("md.b".toList).isPrefixOf line then
            dumpLoop size checksum rest progLeft hasher off written
          else
            match HexDump.parse_line line with
            | none =>
              DumpOut.mk (DumpRes.err "Unable to parse hexdump line") off hasher written false
            | some (_, data) =>
              if data.length > 16 then
                DumpOut.mk (DumpRes.err "Number of bytes per line unexpectedly exceeds 16")
                  off hasher written false
              else
                let hasher1 := crc32Update hasher data
                let written1 := written ++ data
                let off1 := (off + data.length) % 2 ^ 64
                if progLeft > 0 then
                  dumpLoop size checksum rest (progLeft - 1) hasher1 off1 written1
                else
                  dumpFinish size checksum off1 hasher1 written1 true
        else
          DumpOut.mk (DumpRes.err "Unexpected end of dump") off hasher written false
    else
      dumpFinish size checksum off hasher written false

/-- Source `dump_mtd_part` from the `md.b` command on: the staging `sf`
commands and the `crc32` query are summarised by the `checksum` argument
(the device-computed reference CRC); the hex-dump transcript arrives as
`events`. -/
def dump_mtd_part (size checksum : Nat) (events : List (List Char))
    (progCap : Nat) : DumpOut :=
  dumpLoop size checksum events progCap 0xFFFFFFFF 0 []

/-- Lower-case hexadecimal digit character for a value below sixteen. -/
def hexChar (n : Nat) : Char := ("0123456789abcdef".toList).getD n '0'

/-- Canonical two-digit rendering of a byte, as `md.b` prints it. -/
def byteHex (b : Nat) : List Char := [hexChar (b / 16), hexChar (b % 16)]

/-- Space-separated rendering of a byte sequence. -/
def renderPairs : List Nat → List Char
  | [] => []
  | [b] => byteHex b
  | b :: rest => byteHex b ++ ' ' :: renderPairs rest

/-- A minimal well-formed hex-dump line (`<addr>: <pairs>`) carrying the
given bytes, with address zero. -/
def renderHexLine (bs : List Nat) : List Char :=
  '0' :: ':' :: ' ' :: renderPairs bs

/-- The pieces following the first pair: a space then a pair, repeated. -/
def sepChunks (bs : List Nat) : List Char :=
  (bs.map (fun b => ' ' :: byteHex b)).flatten

/-!
Theorems. Each claim theorem is preceded by a doc comment naming the claim.
-/

set_option maxRecDepth 1000000

/-- C9: `TerminalKey::encode` of a `Ctrl` code returns the single byte
`code - 0x40` whenever the code lies in `b'A'..=b'Z'`; for every code below
`0x40` the `u8` subtraction `code - (b'A' - 0x1)` underflows (a panic in
debug builds), so the encoding is not well-defined there. -/
theorem c9_ctrl_encode :
    (∀ code : Nat, 0x41 ≤ code → code ≤ 0x5A →
      TerminalKey.encode (TerminalKey.Ctrl code) = some [code - 0x40]) ∧
    (∀ code : Nat, code < 0x40 →
      TerminalKey.encode (TerminalKey.Ctrl code) = none) := by
  constructor
  · intro code h1 h2
    have hn : ¬ code < 0x40 := by omega
    simp [TerminalKey.encode, hn, utf8Encode, show code - 0x40 < 0x80 by omega]
  · intro code h
    simp [TerminalKey.encode, h]

/-- Witness for C9 at Ctrl-C (`0x43`) and at the raw control byte `0x03`. -/
theorem c9_ctrl_encode_witness :
    TerminalKey.encode (TerminalKey.Ctrl 0x43) = some [0x03] ∧
    TerminalKey.encode (TerminalKey.Ctrl 0x03) = none :=
  ⟨c9_ctrl_encode.1 0x43 (by decide) (by decide), c9_ctrl_encode.2 0x03 (by decide)⟩

/-- C10: the decimal branch of `size_u64` uses the hexadecimal digit parser,
so letter digits are folded into the base-10 accumulator: `"1a"` parses to
`1 * 10 + 10 = 20` (also with an upper-case digit, and a lone `f` gives 15). -/
theorem c10_dec_u64_hex_digits :
    dec_u64 ("1a".toList) = some ([], 20) ∧
    size_u64 ("1a".toList) = some ([], 20) ∧
    dec_u64 ("1A".toList) = some ([], 20) ∧
    dec_u64 ("f".toList) = some ([], 15) := by decide

/-- C5 counterexample: on `0x10000000000000000` (= 2^64, which overflows
`u64`) `size_u64` does NOT return a parse error; the wrapping accumulator
yields `Ok(0)` (in a debug build the same input panics — either way there is
no parse error as the claim requires). -/
theorem c5_overflow_counterexample :
    size_u64 ("0x10000000000000000".toList) = some ([], 0) ∧
    size_u64 ("0x10000000000000000".toList) ≠ none := by decide

/-- C5 amended: `size_u64` accepts `0x`-prefixed hex or decimal with
optional case-insensitive `k`/`m` magnitude and trailing `b`, with the
claimed example values; however a numeric overflow is NOT a parse error:
the accumulator and unit multiplication wrap modulo 2^64 (release builds;
debug builds panic), e.g. both 2^64 spellings parse to 0. -/
theorem c5_size_u64_amended :
    size_u64 ("0x100".toList) = some ([], 256) ∧
    size_u64 ("64KB".toList) = some ([], 65536) ∧
    size_u64 ("64kb".toList) = some ([], 65536) ∧
    size_u64 ("8M".toList) = some ([], 8388608) ∧
    size_u64 ("8m".toList) = some ([], 8388608) ∧
    size_u64 ("16".toList) = some ([], 16) ∧
    size_u64 ("0X100".toList) = some ([], 256) ∧
    size_u64 ("0x10000000000000000".toList) = some ([], 0) ∧
    size_u64 ("18446744073709551616".toList) = some ([], 0) := by decide

/-- C6 counterexample: `VersionInfo::parse` accepts `U-Boot 2016.13` and
returns month 13, outside 1..=12 — the parser puts no range constraint on
the month beyond fitting in a `u8`. -/
theorem c6_month_counterexample :
    VersionInfo.parse ("U-Boot 2016.13".toList)
      = some ([], VersionInfo.mk 2016 13 "" "") ∧
    ¬ (1 ≤ (VersionInfo.mk 2016 13 "" "").month ∧
       (VersionInfo.mk 2016 13 "" "").month ≤ 12) := by decide

/-- C2 counterexample: a line whose seventeen byte pairs are separated by
single spaces is parsed by `HexDump::parse_line` into all seventeen bytes —
nothing limits the list to 16, and the result is not the first 16 bytes. -/
theorem c2_parse_line_counterexample :
    (HexDump.parse_line
      ("42000000: 00 01 02 03 04 05 06 07 08 09 0a 0b 0c 0d 0e 0f 10\r".toList)).map
        Prod.snd
      = some [0, 1, 2, 3, 4, 5, 6, 7, 8, 9, 10, 11, 12, 13, 14, 15, 16] ∧
    ([0, 1, 2, 3, 4, 5, 6, 7, 8, 9, 10, 11, 12, 13, 14, 15, 16] : List Nat).length = 17 ∧
    ([0, 1, 2, 3, 4, 5, 6, 7, 8, 9, 10, 11, 12, 13, 14, 15, 16] : List Nat) ≠
      [0, 1, 2, 3, 4, 5, 6, 7, 8, 9, 10, 11, 12, 13, 14, 15] := by decide

/-- C3 counterexample: over the empty chunk sequence the framer emits no
line at all, while splitting the (empty) concatenation on `\n` yields one
empty line — the equivalence fails for the zero-chunk partition of the
empty byte sequence. -/
theorem c3_framer_counterexample :
    framerLines [] = [] ∧
    splitNl (List.flatten ([] : List (List Nat))) = [[]] ∧
    (([] : List (List Nat)) ≠ [[]]) := by decide

/-- C4 counterexample: an empty chunk is NOT a no-op — the timer is reset on
every chunk arrival including an empty one, and when the framer's buffer is
empty the empty chunk pushes a fresh empty open tail, which surfaces as a
spurious empty line once the stream ends. -/
theorem c4_empty_chunk_counterexample :
    framerLines [[]] = [[]] ∧ framerLines [] = [] ∧
    (([[]] : List (List Nat)) ≠ []) ∧ pollTimerReset (some []) = true := by decide

/-- C7 counterexample: a duplicate partition name makes `parse_mtd_parts`
collapse two textual partitions into one `IndexMap` entry (last value, first
position), so the first region's base is 0x30 instead of the sum (0) of the
sizes before it, and the iteration order no longer matches the textual
partition order. -/
theorem c7_mtd_counterexample :
    Variables.parse_mtd_parts ("p:0x10(a),0x20(b),0x30(a)".toList)
      = some [("a", MemRegion.mk 0x30 0x30), ("b", MemRegion.mk 0x10 0x20)] ∧
    (MemRegion.mk 0x30 0x30).base ≠ 0 ∧
    ([("a", MemRegion.mk 0x30 0x30), ("b", MemRegion.mk 0x10 0x20)].map Prod.fst
      ≠ ["a", "b", "a"]) := by decide

/-- C1 counterexample: a dump of a 32-byte region whose only anomaly is the
dropped progress receiver (capacity 0; the single delivered line is a valid
16-byte hex-dump line and the reference checksum is the true CRC of the full
region). The code does send Ctrl-C and stop the loop, but then still runs
the checksum comparison, so `dump_mtd_part` returns the checksum-mismatch
failure instead of success. -/
theorem c1_cancel_counterexample :
    (dump_mtd_part 32 (crc32 (List.replicate 32 0))
      ["00000000: 00 00 00 00 00 00 00 00 00 00 00 00 00 00 00 00\r".toList] 0).ctrlC
        = true ∧
    (dump_mtd_part 32 (crc32 (List.replicate 32 0))
      ["00000000: 00 00 00 00 00 00 00 00 00 00 00 00 00 00 00 00\r".toList] 0).result
        = DumpRes.err "Checksum does not matches!" ∧
    (dump_mtd_part 32 (crc32 (List.replicate 32 0))
      ["00000000: 00 00 00 00 00 00 00 00 00 00 00 00 00 00 00 00\r".toList] 0).result
        ≠ DumpRes.ok := by decide

theorem appendToLast_two (x y : List Nat) (rest : List (List Nat)) (piece : List Nat) :
    appendToLast (x :: y :: rest) piece = x :: appendToLast (y :: rest) piece := rfl

theorem appendToLast_ne_nil (buf : List (List Nat)) (piece : List Nat) :
    appendToLast buf piece ≠ [] := by
  cases buf with
  | nil => simp [appendToLast]
  | cons x rest =>
    cases rest with
    | nil => simp [appendToLast]
    | cons y rr => rw [appendToLast_two]; simp

theorem splitNl_ne_nil (l : List Nat) : splitNl l ≠ [] := by
  cases l with
  | nil => simp [splitNl]
  | cons b rest =>
    rw [splitNl]
    split
    · simp
    · cases h : splitNl rest with
      | nil => simp
      | cons p ps => simp

theorem splitNl_cons_10 (l : List Nat) : splitNl (10 :: l) = [] :: splitNl l := by
  simp [splitNl]

theorem splitNl_cons_ne (c : Nat) (l : List Nat) (hc : c ≠ 10) :
    splitNl (c :: l) = (c :: (splitNl l).headI) :: (splitNl l).tail := by
  rw [splitNl]
  cases h : splitNl l with
  | nil => exact absurd h (splitNl_ne_nil l)
  | cons p ps => simp [hc]

theorem appendToLast_cons_head (c : Nat) (p : List Nat) (ps : List (List Nat))
    (piece : List Nat) :
    appendToLast ((c :: p) :: ps) piece
      = (c :: (appendToLast (p :: ps) piece).headI)
          :: (appendToLast (p :: ps) piece).tail := by
  cases ps with
  | nil => simp [appendToLast]
  | cons y ys => rw [appendToLast_two, appendToLast_two]; simp

theorem pushChunk_nil_buf (c : List Nat) : pushChunk [] c = splitNl c := by
  rw [pushChunk]
  cases h : splitNl c with
  | nil => exact absurd h (splitNl_ne_nil c)
  | cons q qs => simp [appendToLast]

theorem pushChunk_eq (buf : List (List Nat)) (b q : List Nat)
    (qs : List (List Nat)) (h : splitNl b = q :: qs) :
    pushChunk buf b = appendToLast buf q ++ qs := by
  rw [pushChunk, h]

theorem pushChunk_splitNl (a b : List Nat) :
    pushChunk (splitNl a) b = splitNl (a ++ b) := by
  induction a with
  | nil =>
    rw [List.nil_append]
    cases h : splitNl b with
    | nil => exact absurd h (splitNl_ne_nil b)
    | cons q qs =>
      rw [pushChunk_eq _ b q qs h]
      simp [splitNl, appendToLast]
  | cons c a1 ih =>
    cases h : splitNl b with
    | nil => exact absurd h (splitNl_ne_nil b)
    | cons q qs =>
      cases h1 : splitNl a1 with
      | nil => exact absurd h1 (splitNl_ne_nil a1)
      | cons p ps =>
        by_cases hc : c = 10
        · subst hc
          rw [splitNl_cons_10, List.cons_append, splitNl_cons_10, ← ih]
          rw [pushChunk_eq _ b q qs h, pushChunk_eq _ b q qs h, h1]
          rw [appendToLast_two]
          simp
        · rw [splitNl_cons_ne c a1 hc, List.cons_append, splitNl_cons_ne c (a1 ++ b) hc, ← ih]
          rw [pushChunk_eq _ b q qs h, pushChunk_eq _ b q qs h, h1]
          simp only [List.headI, List.tail]
          rw [appendToLast_cons_head]
          cases hA : appendToLast (p :: ps) q with
          | nil => exact absurd hA (appendToLast_ne_nil _ _)
          | cons q0 A1 => simp

theorem foldl_pushChunk_splitNl (cs : List (List Nat)) (a : List Nat) :
    List.foldl pushChunk (splitNl a) cs = splitNl (a ++ cs.flatten) := by
  induction cs generalizing a with
  | nil => simp
  | cons c cs ih =>
    rw [List.foldl_cons, pushChunk_splitNl, ih, List.flatten_cons, List.append_assoc]

/-- C3 amended: for every byte sequence partitioned into at least one chunk,
running the line framer over the chunks and draining it after the upstream
ends yields exactly the lines obtained by splitting the concatenation of all
chunks on `\n` (each `\n` consumed, a preceding `\r` retained in its line).
The zero-chunk case is the sole exception (see the counterexample). -/
theorem c3_framer_amended (chunks : List (List Nat)) (h : chunks ≠ []) :
    framerLines chunks = splitNl chunks.flatten := by
  cases chunks with
  | nil => exact absurd rfl h
  | cons c cs =>
    rw [framerLines, List.foldl_cons, pushChunk_nil_buf, foldl_pushChunk_splitNl,
      List.flatten_cons]

/-- Witness for C3 amended on a concrete two-chunk partition. -/
theorem c3_framer_amended_witness :
    framerLines [[97, 10], [98]] = splitNl (List.flatten [[97, 10], [98]]) :=
  c3_framer_amended [[97, 10], [98]] (by decide)

theorem appendToLast_empty_piece (buf : List (List Nat)) (h : buf ≠ []) :
    appendToLast buf [] = buf := by
  induction buf with
  | nil => exact absurd rfl h
  | cons x rest ih =>
    cases rest with
    | nil => simp [appendToLast]
    | cons y rr => rw [appendToLast_two, ih (by simp)]

/-- C4 amended: an empty chunk DOES reset the quiescence timer (the reset
happens on every chunk arrival); it never causes an immediate emission, and
on a nonempty buffer it leaves the buffer unchanged — but on an empty buffer
it pushes a fresh empty open tail (flushed later as a spurious empty line at
end-of-stream or on a quiescence timeout). -/
theorem c4_empty_chunk_amended :
    pollTimerReset (some []) = true ∧
    (∀ buf : List (List Nat), buf ≠ [] → pushChunk buf [] = buf) ∧
    pushChunk [] [] = [[]] ∧
    (∀ buf : List (List Nat), (pushChunk buf []).length ≤ max buf.length 1) := by
  have hne : ∀ buf : List (List Nat), buf ≠ [] → pushChunk buf [] = buf := by
    intro buf h
    rw [pushChunk]
    simp only [splitNl]
    rw [appendToLast_empty_piece buf h]
    simp
  refine ⟨rfl, hne, by decide, ?_⟩
  intro buf
  cases buf with
  | nil => simp [pushChunk, splitNl, appendToLast]
  | cons x rest => rw [hne (x :: rest) (by simp)]; simp

/-- Witness for C4 amended: the no-op on a concrete nonempty buffer. -/
theorem c4_empty_chunk_amended_witness : pushChunk [[97]] [] = [[97]] :=
  c4_empty_chunk_amended.2.1 [[97]] (by decide)

theorem pmap_inv {α β : Type} {p : NomP α} {f : α → β} {s s1 : List Char} {b : β}
    (h : pmap p f s = some (s1, b)) : ∃ a, p s = some (s1, a) ∧ b = f a := by
  simp only [pmap] at h
  split at h
  · exact Option.noConfusion h
  next s2 a heq =>
    injection h with h1
    injection h1 with hs hb
    subst hs
    exact ⟨a, heq, hb.symm⟩

theorem pseq_inv {α β : Type} {p : NomP α} {q : NomP β} {s s2 : List Char}
    {ab : α × β} (h : pseq p q s = some (s2, ab)) :
    ∃ s1, p s = some (s1, ab.1) ∧ q s1 = some (s2, ab.2) := by
  simp only [pseq] at h
  split at h
  · exact Option.noConfusion h
  next s1 a heq =>
    split at h
    · exact Option.noConfusion h
    next s3 b heq2 =>
      injection h with h1
      injection h1 with hs hab
      subst hs
      subst hab
      exact ⟨s1, heq, heq2⟩

theorem nom_uint_digs_le (max : Nat) (s : List Char) :
    ∀ val s1 n, nom_uint_digs max s val = some (s1, n) → val ≤ max → n ≤ max := by
  induction s with
  | nil =>
    intro val s1 n h hv
    simp only [nom_uint_digs] at h
    injection h with h1
    injection h1 with hs hn
    omega
  | cons c rest ih =>
    intro val s1 n h hv
    simp only [nom_uint_digs] at h
    split at h
    next d heq =>
      split at h
      · exact Option.noConfusion h
      next hgt =>
        exact ih _ _ _ h (by omega)
    next heq =>
      injection h with h1
      injection h1 with hs hn
      omega

theorem nom_uint_le (max : Nat) (s s1 : List Char) (n : Nat)
    (h : nom_uint max s = some (s1, n)) : n ≤ max := by
  simp only [nom_uint] at h
  split at h
  next c rest =>
    split at h
    next d heq =>
      split at h
      · exact Option.noConfusion h
      next hgt =>
        exact nom_uint_digs_le max rest d s1 n h (by omega)
    next heq => exact Option.noConfusion h
  next => exact Option.noConfusion h

/-- C6 amended: whenever `VersionInfo::parse` succeeds, the month is only
constrained to fit the nom `u8` parser, i.e. `month ≤ 255`; the range
1..=12 asserted by the claim is NOT enforced (see the counterexample where
month 13 is accepted). -/
theorem c6_month_amended (s rest : List Char) (v : VersionInfo)
    (h : VersionInfo.parse s = some (rest, v)) : v.month ≤ 255 := by
  unfold VersionInfo.parse at h
  obtain ⟨x, hx, hv⟩ := pmap_inv h
  obtain ⟨s1, hA, _⟩ := pseq_inv hx
  obtain ⟨s2, hB, _⟩ := pseq_inv hA
  obtain ⟨s3, _, hmonth⟩ := pseq_inv hB
  have hm : x.1.1.2 ≤ 255 := nom_uint_le 255 s3 s2 x.1.1.2 hmonth
  subst hv
  exact hm

/-- Witness for C6 amended on the repository's own version banner. -/
theorem c6_month_amended_witness : (VersionInfo.mk 2016 11 "g2fc5f58" "dirty").month ≤ 255 :=
  c6_month_amended ("version: U-Boot 2016.11-g2fc5f58-dirty\r".toList) ("\r".toList)
    (VersionInfo.mk 2016 11 "g2fc5f58" "dirty") (by decide)

theorem fold_digs_stop (dig : NomP Nat) (f : Nat → Nat → Nat) (fuel : Nat)
    (s : List Char) (val : Nat) (h : dig s = none) :
    fold_digs dig f fuel s val = (s, val) := by
  cases fuel with
  | zero => rw [fold_digs]
  | succ m => rw [fold_digs, h]

theorem pseq_mk {α β : Type} (p : NomP α) (q : NomP β) (s s1 s2 : List Char)
    (a : α) (b : β) (hp : p s = some (s1, a)) (hq : q s1 = some (s2, b)) :
    pseq p q s = some (s2, (a, b)) := by
  simp [pseq, hp, hq]

theorem pmap_mk {α β : Type} (p : NomP α) (f : α → β) (s s1 : List Char)
    (a : α) (hp : p s = some (s1, a)) : pmap p f s = some (s1, f a) := by
  simp [pmap, hp]

theorem hex_dig_val_hexChar : ∀ n < 16, hex_dig_val (hexChar n) = some n := by decide

theorem hexChar_not_space : ∀ n < 16, isNomSpace (hexChar n) = false := by decide

theorem hex_byte_recompose : ∀ b < 256, ((b / 16) <<< 4) ||| (b % 16) = b := by decide

theorem hex_u8_byteHex (b : Nat) (hb : b < 256) (t : List Char) :
    hex_u8 (byteHex b ++ t) = some (t, b) := by
  have h1 : hex_dig_val (hexChar (b / 16)) = some (b / 16) :=
    hex_dig_val_hexChar _ (by omega)
  have h2 : hex_dig_val (hexChar (b % 16)) = some (b % 16) :=
    hex_dig_val_hexChar _ (by omega)
  simp [hex_u8, hex_dig, byteHex, h1, h2, hex_byte_recompose b hb]

theorem sepChunks_nil : sepChunks [] = [] := rfl

theorem sepChunks_cons (b : Nat) (bs : List Nat) :
    sepChunks (b :: bs) = ' ' :: (byteHex b ++ sepChunks bs) := by
  simp [sepChunks]

theorem sepChunks_length (bs : List Nat) :
    (sepChunks bs).length = 3 * bs.length := by
  induction bs with
  | nil => rfl
  | cons b rest ih => rw [sepChunks_cons]; simp [byteHex, ih]; omega

theorem renderPairs_cons (b : Nat) (bs : List Nat) :
    renderPairs (b :: bs) = byteHex b ++ sepChunks bs := by
  induction bs generalizing b with
  | nil => simp [renderPairs, sepChunks_nil]
  | cons x xs ih =>
    rw [renderPairs, ih x, sepChunks_cons]
    simp

theorem sep_loop_chunks (bs : List Nat) (hb : ∀ b ∈ bs, b < 256) :
    ∀ fuel acc, bs.length < fuel →
      sep_list_rest (pchar ' ') hex_u8 fuel (sepChunks bs) acc = ([], acc ++ bs) := by
  induction bs with
  | nil =>
    intro fuel acc hf
    cases fuel with
    | zero => omega
    | succ m => rw [sep_list_rest]; simp [pchar, sepChunks_nil]
  | cons b rest ih =>
    intro fuel acc hf
    cases fuel with
    | zero => simp at hf
    | succ m =>
      rw [sep_list_rest, sepChunks_cons]
      have hpc : pchar ' ' (' ' :: (byteHex b ++ sepChunks rest)) =
          some (byteHex b ++ sepChunks rest, ()) := by simp [pchar]
      have hu8 : hex_u8 (byteHex b ++ sepChunks rest) = some (sepChunks rest, b) :=
        hex_u8_byteHex b (hb b (by simp)) (sepChunks rest)
      have hlt : (sepChunks rest).length < (' ' :: (byteHex b ++ sepChunks rest)).length := by
        simp [byteHex]
        omega
      simp only [hpc, hu8, if_pos hlt]
      rw [ih (fun x hx => hb x (by simp [hx])) m (acc ++ [b]) (by simp at hf; omega)]
      simp

/-- C2 amended: `HexDump::parse_line` imposes NO 16-byte cap — for every
byte sequence, of any length, a line carrying its single-space-separated
two-digit pairs parses back to exactly the full sequence (the 16-byte limit
of the claim is enforced later by `dump_mtd_part`, which rejects a parsed
line longer than 16 bytes; the repository's own overflow test only sees 16
bytes because the ASCII gutter sits behind a double space, which stops the
separator loop). -/
theorem c2_parse_line_amended (bs : List Nat) (hb : ∀ b ∈ bs, b < 256) :
    HexDump.parse_line (renderHexLine bs) = some ([], bs) := by
  have hv0 : hex_dig_val '0' = some 0 := by decide
  have hcolon : hex_dig (':' :: ' ' :: renderPairs bs) = none := by
    have hvc : hex_dig_val ':' = none := by decide
    simp [hex_dig, hvc]
  have h64 : hex_u64 (renderHexLine bs) = some (':' :: ' ' :: renderPairs bs, 0) := by
    rw [renderHexLine]
    simp only [hex_u64, fold_many1, hex_dig, hv0]
    rw [fold_digs_stop _ _ _ _ _ hcolon]
    norm_num
  have hdw : (renderPairs bs).dropWhile isNomSpace = renderPairs bs := by
    cases bs with
    | nil => simp [renderPairs]
    | cons b rest =>
      rw [renderPairs_cons]
      have hns : isNomSpace (hexChar (b / 16)) = false :=
        hexChar_not_space _ (by have := hb b (by simp); omega)
      simp [byteHex, List.dropWhile_cons, hns]
  have hsep : separated_list0 (pchar ' ') hex_u8 (renderPairs bs) = some ([], bs) := by
    cases bs with
    | nil => simp [separated_list0, renderPairs, hex_u8, hex_dig]
    | cons b rest =>
      simp only [separated_list0, renderPairs_cons,
        hex_u8_byteHex b (hb b (by simp)) (sepChunks rest)]
      have hloop := sep_loop_chunks rest (fun x hx => hb x (by simp [hx]))
        ((sepChunks rest).length + 1) [b]
        (by rw [sepChunks_length]; omega)
      simp [hloop]
  have hcol : pchar ':' (':' :: ' ' :: renderPairs bs) = some (' ' :: renderPairs bs, ()) := by
    simp [pchar]
  have hsp : space0 (' ' :: renderPairs bs) = some (renderPairs bs, ()) := by
    simp [space0, List.dropWhile_cons, isNomSpace, hdw]
  have h1 := pseq_mk hex_u64 (pchar ':') _ _ _ _ _ h64 hcol
  have h2 := pseq_mk _ space0 _ _ _ _ _ h1 hsp
  have h3 := pseq_mk _ (separated_list0 (pchar ' ') hex_u8) _ _ _ _ _ h2 hsep
  exact pmap_mk _ _ _ _ _ h3

/-- Witness for C2 amended at a 17-byte line: all 17 bytes come back. -/
theorem c2_parse_line_amended_witness :
    HexDump.parse_line
        (renderHexLine [0, 1, 2, 3, 4, 5, 6, 7, 8, 9, 10, 11, 12, 13, 14, 15, 16])
      = some ([], [0, 1, 2, 3, 4, 5, 6, 7, 8, 9, 10, 11, 12, 13, 14, 15, 16]) :=
  c2_parse_line_amended [0, 1, 2, 3, 4, 5, 6, 7, 8, 9, 10, 11, 12, 13, 14, 15, 16]
    (by decide)

theorem indexInsert_not_mem {α : Type} (m : List (String × α)) (k : String) (v : α)
    (h : k ∉ m.map Prod.fst) : indexInsert m k v = m ++ [(k, v)] := by
  induction m with
  | nil => rfl
  | cons kv rest ih =>
    obtain ⟨k1, v1⟩ := kv
    simp only [List.map_cons, List.mem_cons, not_or] at h
    rw [indexInsert, if_neg (fun he => h.1 he.symm), ih h.2]
    simp

theorem foldl_indexInsert_nodup {α : Type} (l : List (String × α)) :
    ∀ acc : List (String × α), ((acc ++ l).map Prod.fst).Nodup →
      l.foldl (fun m kv => indexInsert m kv.1 kv.2) acc = acc ++ l := by
  induction l with
  | nil => intro acc _; simp
  | cons kv rest ih =>
    intro acc h
    obtain ⟨k, v⟩ := kv
    have hk : k ∉ acc.map Prod.fst := by
      intro hmem
      rw [List.map_append] at h
      have hd := (List.nodup_append.mp h).2.2
      exact hd hmem (by simp)
    rw [List.foldl_cons]
    have hstep : indexInsert acc k v = acc ++ [(k, v)] := indexInsert_not_mem acc k v hk
    simp only [hstep]
    rw [ih (acc ++ [(k, v)]) (by simpa using h)]
    simp

theorem indexCollect_of_nodup {α : Type} (l : List (String × α))
    (h : (l.map Prod.fst).Nodup) : indexCollect l = l := by
  have := foldl_indexInsert_nodup l [] (by simpa using h)
  simpa [indexCollect] using this

theorem scanParts_map_fst (parts : List (String × Nat)) (off : Nat) :
    (scanParts parts off).map Prod.fst = parts.map Prod.fst := by
  induction parts generalizing off with
  | nil => simp [scanParts]
  | cons p rest ih =>
    obtain ⟨name, size⟩ := p
    simp [scanParts, ih]

theorem scanParts_base (parts : List (String × Nat)) :
    ∀ off, off + (parts.map Prod.snd).sum < 2 ^ 64 →
      ∀ i, (h : i < (scanParts parts off).length) →
        ((scanParts parts off)[i]).2.base
          = off + (((scanParts parts off).take i).map (fun e => e.2.size)).sum := by
  induction parts with
  | nil => intro off ho i h; simp [scanParts] at h
  | cons p rest ih =>
    obtain ⟨name, size⟩ := p
    intro off ho i h
    have hsum : size + (rest.map Prod.snd).sum = ((name, size) :: rest |>.map Prod.snd).sum := by
      simp
    cases i with
    | zero => simp [scanParts]
    | succ j =>
      have hmod : (off + size) % 2 ^ 64 = off + size :=
        Nat.mod_eq_of_lt (by simp at ho; omega)
      have hj : j < (scanParts rest ((off + size) % 2 ^ 64)).length := by
        rw [scanParts] at h
        simpa using h
      have hrec := ih ((off + size) % 2 ^ 64) (by rw [hmod]; simp at ho; omega) j hj
      simp only [scanParts, List.getElem_cons_succ, List.take_succ_cons, List.map_cons,
        List.sum_cons]
      rw [hrec, hmod]
      omega

/-- C7 amended: for every accepted mtdparts string whose partition names are
pairwise distinct and whose total size does not overflow `u64`, the table is
exactly the scan of the textual list: iteration order equals textual order
and each region's base is the sum of the sizes of the regions before it.
With a duplicated name (or a wrapping total) the invariant fails (see the
counterexample): the `IndexMap` collapses duplicates to first position with
last value. -/
theorem c7_mtd_invariant_amended (src rest : List Char) (parts : List (String × Nat))
    (hp : mtd_parts_list src = some (rest, parts))
    (hn : (parts.map Prod.fst).Nodup)
    (hs : (parts.map Prod.snd).sum < 2 ^ 64) :
    Variables.parse_mtd_parts src = some (scanParts parts 0) ∧
    (scanParts parts 0).map Prod.fst = parts.map Prod.fst ∧
    ∀ i, (h : i < (scanParts parts 0).length) →
      ((scanParts parts 0)[i]).2.base
        = (((scanParts parts 0).take i).map (fun e => e.2.size)).sum := by
  refine ⟨?_, scanParts_map_fst parts 0, ?_⟩
  · simp only [Variables.parse_mtd_parts, hp]
    congr 1
    exact indexCollect_of_nodup _ (by rw [scanParts_map_fst]; exact hn)
  · intro i h
    have hb := scanParts_base parts 0 (by omega) i h
    simpa using hb

/-- Witness for C7 amended on the spec's own mtdparts example. -/
theorem c7_mtd_invariant_amended_witness :
    Variables.parse_mtd_parts
        ("hi_sfc:0x40000(boot),0x2E0000(romfs),0x420000(user)".toList)
      = some (scanParts [("boot", 0x40000), ("romfs", 0x2E0000), ("user", 0x420000)] 0) :=
  (c7_mtd_invariant_amended
    ("hi_sfc:0x40000(boot),0x2E0000(romfs),0x420000(user)".toList) []
    [("boot", 0x40000), ("romfs", 0x2E0000), ("user", 0x420000)]
    (by decide) (by decide) (by decide)).1

theorem indexInsert_keys {α : Type} (m : List (String × α)) (k : String) (v : α) :
    (indexInsert m k v).map Prod.fst =
      if k ∈ m.map Prod.fst then m.map Prod.fst else m.map Prod.fst ++ [k] := by
  induction m with
  | nil => simp [indexInsert]
  | cons kv rest ih =>
    obtain ⟨k1, v1⟩ := kv
    by_cases hk : k1 = k
    · subst hk
      simp [indexInsert]
    · rw [indexInsert, if_neg hk]
      by_cases hmem : k ∈ rest.map Prod.fst
      · simp [hmem, ih, Ne.symm hk]
      · simp [hmem, ih, Ne.symm hk]

theorem tblGet_indexInsert (m : List (String × String)) (k q : String) (v : String) :
    tblGet q (indexInsert m k v) = if q = k then some v else tblGet q m := by
  induction m with
  | nil =>
    by_cases hq : q = k
    · subst hq; simp [indexInsert, tblGet]
    · simp [indexInsert, tblGet, hq, Ne.symm hq]
  | cons kv rest ih =>
    obtain ⟨k1, v1⟩ := kv
    by_cases hk : k1 = k
    · subst hk
      by_cases hq : q = k1
      · subst hq; simp [indexInsert, tblGet]
      · simp [indexInsert, tblGet, hq, Ne.symm hq]
    · rw [indexInsert, if_neg hk]
      by_cases hq : q = k
      · subst hq
        rw [tblGet, if_neg (fun h => hk h)]
        simp [ih, tblGet]
      · by_cases hq1 : k1 = q
        · subst hq1; simp [tblGet, hq]
        · simp [tblGet, hq1, ih, hq]

theorem firstKeys_concat (kvs : List (String × String)) (k v : String) :
    firstKeys (kvs ++ [(k, v)]) =
      if k ∈ firstKeys kvs then firstKeys kvs else firstKeys kvs ++ [k] := by
  simp [firstKeys, List.map_append, List.foldl_append]

theorem lastWritten_concat (q k v : String) (kvs : List (String × String)) :
    lastWritten q (kvs ++ [(k, v)]) = if k = q then some v else lastWritten q kvs := by
  induction kvs with
  | nil => simp [lastWritten]
  | cons kv rest ih =>
    obtain ⟨a, b⟩ := kv
    rw [List.cons_append, lastWritten, ih]
    by_cases hk : k = q
    · simp [hk]
    · simp only [if_neg hk]
      rw [lastWritten]

theorem envTable_keys (kvs : List (String × String)) :
    ((kvs.foldl (fun m kv => indexInsert m kv.1 kv.2) []).map Prod.fst) = firstKeys kvs := by
  induction kvs using List.reverseRecOn with
  | nil => simp [firstKeys]
  | append_singleton kvs kv ih =>
    obtain ⟨k, v⟩ := kv
    rw [List.foldl_append, List.foldl_cons, List.foldl_nil]
    rw [indexInsert_keys, ih, firstKeys_concat]

theorem envTable_get (kvs : List (String × String)) (q : String) :
    tblGet q (kvs.foldl (fun m kv => indexInsert m kv.1 kv.2) []) = lastWritten q kvs := by
  induction kvs using List.reverseRecOn with
  | nil => simp [tblGet, lastWritten]
  | append_singleton kvs kv ih =>
    obtain ⟨k, v⟩ := kv
    rw [List.foldl_append, List.foldl_cons, List.foldl_nil]
    rw [tblGet_indexInsert, lastWritten_concat, ih]
    by_cases hq : q = k
    · simp [hq]
    · simp [hq, Ne.symm hq]

theorem envFold_filterMap (lines : List (List Char)) (acc : List (String × String)) :
    lines.foldl
      (fun m line =>
        match parse_env_line line with
        | some (k, v) => indexInsert m k v
        | none => m) acc
      = (lines.filterMap parse_env_line).foldl (fun m kv => indexInsert m kv.1 kv.2) acc := by
  induction lines generalizing acc with
  | nil => rfl
  | cons l rest ih =>
    rw [List.foldl_cons, List.filterMap_cons]
    cases h : parse_env_line l with
    | none => simp only [h]; exact ih acc
    | some kv =>
      obtain ⟨k, v⟩ := kv
      simp only [h, List.foldl_cons]
      exact ih (indexInsert acc k v)

/-- C8: feeding parseable environment lines through `extend_parse_env` and
serialising one `KEY=VALUE` line per entry lists keys in the order of their
first insertion (`firstKeys`) and associates each key with the value written
by the last line carrying it (`lastWritten`); the serialisation iterates the
store's entries in order. `firstKeys` and `lastWritten` are the
specification-side reading of the claim. -/
theorem c8_env_round_trip (lines : List (List Char))
    (hp : ∀ l ∈ lines, (parse_env_line l).isSome) :
    (envFromLines lines).map Prod.fst = firstKeys (lines.filterMap parse_env_line) ∧
    (∀ q, tblGet q (envFromLines lines)
      = lastWritten q (lines.filterMap parse_env_line)) ∧
    serializeEnv (envFromLines lines)
      = ((envFromLines lines).map
          (fun kv => kv.1.toList ++ '=' :: kv.2.toList ++ ['\n'])).flatten := by
  have he : envFromLines lines
      = (lines.filterMap parse_env_line).foldl (fun m kv => indexInsert m kv.1 kv.2) [] :=
    envFold_filterMap lines []
  refine ⟨?_, ?_, rfl⟩
  · rw [he]; exact envTable_keys _
  · intro q; rw [he]; exact envTable_get _ q

/-- Witness for C8 on three concrete lines with a repeated key. -/
theorem c8_env_round_trip_witness :
    (envFromLines [" baudrate =115200\r".toList, "bootdelay=0".toList,
        "baudrate=9600\r".toList]).map Prod.fst
      = firstKeys ([" baudrate =115200\r".toList, "bootdelay=0".toList,
          "baudrate=9600\r".toList].filterMap parse_env_line) :=
  (c8_env_round_trip
    [" baudrate =115200\r".toList, "bootdelay=0".toList, "baudrate=9600\r".toList]
    (by decide)).1

theorem dumpFinish_ctrlC (size ck off h : Nat) (w : List Nat) (c : Bool) :
    (dumpFinish size ck off h w c).ctrlC = c := by
  unfold dumpFinish
  split
  · rfl
  · split
    · rfl
    · rfl

theorem dumpFinish_off (size ck off h : Nat) (w : List Nat) (c : Bool) :
    (dumpFinish size ck off h w c).off = off := by
  unfold dumpFinish
  split
  · rfl
  · split
    · rfl
    · rfl

theorem dumpFinish_hasher (size ck off h : Nat) (w : List Nat) (c : Bool) :
    (dumpFinish size ck off h w c).hasher = h := by
  unfold dumpFinish
  split
  · rfl
  · split
    · rfl
    · rfl

theorem dumpFinish_written (size ck off h : Nat) (w : List Nat) (c : Bool) :
    (dumpFinish size ck off h w c).written = w := by
  unfold dumpFinish
  split
  · rfl
  · split
    · rfl
    · rfl

theorem dumpFinish_result_ok (size ck off h : Nat) (w : List Nat) (c : Bool) :
    (dumpFinish size ck off h w c).result = DumpRes.ok ↔
      (off ≤ size ∧ ck = h ^^^ 0xFFFFFFFF) := by
  unfold dumpFinish
  split
  next hgt => simp; omega
  next hle =>
    split
    next hne => simp; intro _; exact hne
    next hne =>
      simp only [not_not] at hne
      simp
      omega

theorem dumpLoop_cancel (size ck : Nat) (events : List (List Char)) :
    ∀ progLeft hasher off written,
      (dumpLoop size ck events progLeft hasher off written).ctrlC = true →
      ((dumpLoop size ck events progLeft hasher off written).result = DumpRes.ok ↔
        ((dumpLoop size ck events progLeft hasher off written).off ≤ size ∧
          ck = (dumpLoop size ck events progLeft hasher off written).hasher ^^^
            0xFFFFFFFF)) := by
  induction events with
  | nil =>
    intro progLeft hasher off written h
    rw [dumpLoop] at h ⊢
    by_cases hlt : off < size
    · simp only [if_pos hlt] at h
      exact absurd h (by simp)
    · simp only [if_neg hlt] at h ⊢
      rw [dumpFinish_result_ok, dumpFinish_off, dumpFinish_hasher]
  | cons line rest ih =>
    intro progLeft hasher off written h
    rw [dumpLoop] at h ⊢
    by_cases hlt : off < size
    · simp only [if_pos hlt] at h ⊢
      by_cases hcr : endsWithCR line = true
      · rw [if_pos hcr] at h ⊢
        by_cases hpre : (("md.b".toList).isPrefixOf line) = true
        · rw [if_pos hpre] at h ⊢
          exact ih progLeft hasher off written h
        · rw [if_neg hpre] at h ⊢
          cases hparse : HexDump.parse_line line with
          | none =>
            simp only [hparse] at h
            exact absurd h (by simp)
          | some rd =>
            obtain ⟨r, data⟩ := rd
            simp only [hparse] at h ⊢
            by_cases hlen : data.length > 16
            · rw [if_pos hlen] at h
              exact absurd h (by simp)
            · rw [if_neg hlen] at h ⊢
              by_cases hpl : progLeft > 0
              · rw [if_pos hpl] at h ⊢
                exact ih _ _ _ _ h
              · rw [if_neg hpl] at h ⊢
                rw [dumpFinish_result_ok, dumpFinish_off, dumpFinish_hasher]
      · rw [if_neg hcr] at h
        exact absurd h (by simp)
    · simp only [if_neg hlt] at h ⊢
      rw [dumpFinish_result_ok, dumpFinish_off, dumpFinish_hasher]

theorem dumpLoop_hasher_inv (size ck : Nat) (events : List (List Char)) :
    ∀ progLeft hasher off written,
      hasher = crc32Update 0xFFFFFFFF written →
      (dumpLoop size ck events progLeft hasher off written).hasher
        = crc32Update 0xFFFFFFFF
            (dumpLoop size ck events progLeft hasher off written).written := by
  induction events with
  | nil =>
    intro progLeft hasher off written hinv
    rw [dumpLoop]
    by_cases hlt : off < size
    · simp only [if_pos hlt]
      exact hinv
    · simp only [if_neg hlt]
      rw [dumpFinish_hasher, dumpFinish_written]
      exact hinv
  | cons line rest ih =>
    intro progLeft hasher off written hinv
    rw [dumpLoop]
    by_cases hlt : off < size
    · simp only [if_pos hlt]
      by_cases hcr : endsWithCR line = true
      · rw [if_pos hcr]
        by_cases hpre : (("md.b".toList).isPrefixOf line) = true
        · rw [if_pos hpre]
          exact ih progLeft hasher off written hinv
        · rw [if_neg hpre]
          cases hparse : HexDump.parse_line line with
          | none => simp only [hparse]; exact hinv
          | some rd =>
            obtain ⟨r, data⟩ := rd
            simp only [hparse]
            have hstep : crc32Update hasher data
                = crc32Update 0xFFFFFFFF (written ++ data) := by
              rw [hinv, crc32Update, crc32Update, crc32Update, List.foldl_append]
            by_cases hlen : data.length > 16
            · rw [if_pos hlen]; exact hinv
            · rw [if_neg hlen]
              by_cases hpl : progLeft > 0
              · rw [if_pos hpl]
                exact ih _ _ _ _ hstep
              · rw [if_neg hpl]
                rw [dumpFinish_hasher, dumpFinish_written]
                exact hstep
      · rw [if_neg hcr]; exact hinv
    · simp only [if_neg hlt]
      rw [dumpFinish_hasher, dumpFinish_written]
      exact hinv

/-- C1 amended: when the progress receiver drops during the `md.b` stream,
the client does send Ctrl-C to the device and stops reading (clean abort of
the loop) — but `dump_mtd_part` then still runs the over-read check and the
checksum comparison, so it returns success only if the bytes transcribed up
to the cancellation already satisfy `off ≤ size` and CRC-match the reference
checksum of the whole region; a mid-dump cancellation with partial data
therefore returns the checksum-mismatch failure, not success (see the
counterexample). -/
theorem c1_cancel_amended (size checksum : Nat) (events : List (List Char))
    (progCap : Nat)
    (h : (dump_mtd_part size checksum events progCap).ctrlC = true) :
    (dump_mtd_part size checksum events progCap).result = DumpRes.ok ↔
      ((dump_mtd_part size checksum events progCap).off ≤ size ∧
        checksum = crc32 (dump_mtd_part size checksum events progCap).written) := by
  unfold dump_mtd_part at h ⊢
  have h1 := dumpLoop_cancel size checksum events progCap 0xFFFFFFFF 0 [] h
  have h2 := dumpLoop_hasher_inv size checksum events progCap 0xFFFFFFFF 0 [] rfl
  rw [h1, crc32, ← h2]

/-- Witness for C1 amended at the counterexample's run (receiver already
dropped; one valid 16-byte line of a 32-byte region). -/
theorem c1_cancel_amended_witness :
    (dump_mtd_part 32 (crc32 (List.replicate 32 0))
        ["00000000: 00 00 00 00 00 00 00 00 00 00 00 00 00 00 00 00\r".toList] 0).result
        = DumpRes.ok ↔
      ((dump_mtd_part 32 (crc32 (List.replicate 32 0))
          ["00000000: 00 00 00 00 00 00 00 00 00 00 00 00 00 00 00 00\r".toList] 0).off
            ≤ 32 ∧
        crc32 (List.replicate 32 0)
          = crc32 (dump_mtd_part 32 (crc32 (List.replicate 32 0))
              ["00000000: 00 00 00 00 00 00 00 00 00 00 00 00 00 00 00 00\r".toList]
              0).written) :=
  c1_cancel_amended 32 (crc32 (List.replicate 32 0))
    ["00000000: 00 00 00 00 00 00 00 00 00 00 00 00 00 00 00 00\r".toList] 0
    (by decide)
